import Mathlib

/-!
Verification of the efsw file-watcher library header (`efsw.hpp`) and of the
behaviour its specification assigns to the generic polling backend and the
watcher registry.  The types below follow the source header; the backend and
registry operations, whose implementation is not part of the public header,
are modelled from the specification (each such definition says so in its doc
comment).
-/

namespace Efsw

/-- Actions to listen for, from `Actions::Action` in `efsw.hpp`
(Add = 1, Delete = 2, Modified = 3, Moved = 4). -/
inductive Action where
  | Add
  | Delete
  | Modified
  | Moved
deriving DecidableEq, Repr

/-- Numeric value of each action, as assigned by the `Actions::Action` enum. -/
def Action.code : Action → Nat
  | .Add => 1
  | .Delete => 2
  | .Modified => 3
  | .Moved => 4

/-- Error kinds, from `Errors::Error` in `efsw.hpp`. -/
inductive Error where
  | NoError
  | FileNotFound
  | FileRepeated
  | FileOutOfScope
  | FileNotReadable
  | FileRemote
  | WatcherFailed
  | Unspecified
deriving DecidableEq, Repr

/-- Numeric value of each error kind, as assigned by the `Errors::Error` enum
in `efsw.hpp` (NoError = 0 down to Unspecified = -7). -/
def Error.toInt : Error → Int
  | .NoError => 0
  | .FileNotFound => -1
  | .FileRepeated => -2
  | .FileOutOfScope => -3
  | .FileNotReadable => -4
  | .FileRemote => -5
  | .WatcherFailed => -6
  | .Unspecified => -7

/-- A normalized file event, as passed to
`FileWatchListener::handleFileAction` (`watchid`, `dir`, `filename`,
`action`, `oldFilename`). -/
structure Event where
  watchid : Int
  dir : String
  filename : String
  action : Action
  oldFilename : String
deriving DecidableEq, Repr

/-- Modelled from the spec: the per-entry metadata of a directory snapshot of
the generic polling backend — `{kind, size, mtime, inode-or-equivalent}`;
the inode is optional because inodes may be unavailable. -/
structure FileMeta where
  isDir : Bool
  size : Nat
  mtime : Nat
  inode : Option Nat
deriving DecidableEq, Repr

/-- Modelled from the spec: a directory snapshot of the generic polling
backend — a mapping from leaf name to metadata, kept as an association
list. -/
abbrev Snapshot : Type := List (String × FileMeta)

/-- Lookup in an association list keyed by strings (first match wins, as in
`std::map::find` on unique keys). -/
def alookup {α : Type} : List (String × α) → String → Option α
  | [], _ => none
  | e :: s, n => if e.1 = n then some e.2 else alookup s n

/-- The leaf names recorded in a snapshot. -/
def names (s : Snapshot) : List String := s.map (fun e => e.1)

/-- Modelled from the spec: the Delete half of a generic-backend diff —
leaves present in the old snapshot but absent in the new one. -/
def deletedEntries (old new : Snapshot) : List (String × FileMeta) :=
  old.filter (fun e => (alookup new e.1).isNone)

/-- Modelled from the spec: the Add half of a generic-backend diff — leaves
present in the new snapshot but absent in the old one. -/
def addedEntries (old new : Snapshot) : List (String × FileMeta) :=
  new.filter (fun e => (alookup old e.1).isNone)

/-- Modelled from the spec: the Modified part of a generic-backend diff —
leaves present in both snapshots whose size or mtime changed. -/
def modifiedEntries (old new : Snapshot) : List (String × FileMeta) :=
  new.filterMap (fun e =>
    match alookup old e.1 with
    | none => none
    | some m => if m.size ≠ e.2.size ∨ m.mtime ≠ e.2.mtime then some e else none)

/-- Modelled from the spec: same-parent rename detection of the generic
backend.  A Delete(old leaf) is coalesced with an Add(new leaf) into one
move exactly when both entries carry the same available inode; entries
without an inode are never paired.  Returns the list of moves as
`(old leaf, new leaf)` pairs, the uncoalesced deletes, and the uncoalesced
adds. -/
def coalesceMoves : List (String × FileMeta) → List (String × FileMeta) →
    List (String × String) × List (String × FileMeta) × List (String × FileMeta)
  | [], adds => ([], [], adds)
  | d :: ds, adds =>
    match d.2.inode with
    | none =>
      let r := coalesceMoves ds adds
      (r.1, d :: r.2.1, r.2.2)
    | some i =>
      match adds.find? (fun a => a.2.inode = some i) with
      | some a =>
        let r := coalesceMoves ds (adds.eraseP (fun a => a.2.inode = some i))
        ((d.1, a.1) :: r.1, r.2.1, r.2.2)
      | none =>
        let r := coalesceMoves ds adds
        (r.1, d :: r.2.1, r.2.2)

/-- Modelled from the spec: one polling cycle of the generic backend over one
directory.  The old snapshot is diffed against the new one; deletes are
emitted first, then the moves obtained by inode pairing, then adds, then
modifications, each as a normalized `Event`. -/
def cycleEvents (watchid : Int) (dir : String) (old new : Snapshot) : List Event :=
  let dels := deletedEntries old new
  let adds := addedEntries old new
  let r := coalesceMoves dels adds
  (r.2.1.map (fun d => Event.mk watchid dir d.1 .Delete "")) ++
    (r.1.map (fun p => Event.mk watchid dir p.2 .Moved p.1)) ++
    (r.2.2.map (fun a => Event.mk watchid dir a.1 .Add "")) ++
    (modifiedEntries old new).map (fun m => Event.mk watchid dir m.1 .Modified "")

/-- Rank realizing the per-cycle ordering guarantee
Delete < Moved < Add < Modified. -/
def actionRank : Action → Nat
  | .Delete => 0
  | .Moved => 1
  | .Add => 2
  | .Modified => 3

/-- Modelled from the spec: the per-registration watch record owned by the
backend — id, canonicalized root path, listener reference, recursive flag
and the stored directory snapshot. -/
structure WatchRecord where
  id : Nat
  rootPath : String
  listener : Nat
  recursive : Bool
  snapshot : Snapshot
deriving DecidableEq

/-- Modelled from the spec: the state of one `FileWatcher` backend — the
monotone id allocator, the registry of live watch records, the list of ids
ever handed out (ids are never reused), and the process-wide last-error
slot of `Errors::Log` with its code and message. -/
structure WatcherState where
  nextId : Nat
  watches : List WatchRecord
  issued : List Nat
  lastError : Option (Error × String)
deriving DecidableEq

/-- Modelled from the spec: the fresh state of a `FileWatcher` — no watches,
ids start at 1 (zero is invalid), empty last-error slot. -/
def initialWatcherState : WatcherState :=
  { nextId := 1, watches := [], issued := [], lastError := none }

/-- Modelled from the spec: what the filesystem reports about a directory at
`addWatch` time — whether it exists, is readable, sits on a remote
filesystem, whether the backend subscription fails, and its current entry
listing (the snapshot `addWatch` takes synchronously). -/
structure FsView where
  present : Bool
  readable : Bool
  remote : Bool
  subscribeFails : Bool
  snap : Snapshot
deriving DecidableEq

/-- Modelled from the spec: `Errors::Log::createLastError` — records the
error and its message in the process-wide last-error slot and returns the
error. -/
def createLastError (st : WatcherState) (err : Error) (log : String) :
    WatcherState × Error :=
  ({ st with lastError := some (err, log) }, err)

/-- Modelled from the spec: `Errors::Log::getLastErrorCode` — the code of
the last error logged, `NoError` when the slot is clear. -/
def getLastErrorCode (st : WatcherState) : Error :=
  match st.lastError with
  | none => .NoError
  | some e => e.1

/-- Modelled from the spec: `Errors::Log::getLastErrorLog` — the message of
the last error logged, empty when the slot is clear. -/
def getLastErrorLog (st : WatcherState) : String :=
  match st.lastError with
  | none => ""
  | some e => e.2

/-- Modelled from the spec: `Errors::Log::clearLastError` — resets the
last-error slot. -/
def clearLastError (st : WatcherState) : WatcherState :=
  { st with lastError := none }

/-- Diagnostic text stored with each error kind. -/
def errorMessage (e : Error) (dir : String) : String :=
  match e with
  | .NoError => ""
  | .FileNotFound => "File not found " ++ dir
  | .FileRepeated => "File repeated " ++ dir
  | .FileOutOfScope => "Symlink out of scope " ++ dir
  | .FileNotReadable => "File not readable " ++ dir
  | .FileRemote => "File in remote filesystem " ++ dir
  | .WatcherFailed => "Watcher failed " ++ dir
  | .Unspecified => "Unspecified error " ++ dir

/-- Failure path of `addWatch`: return the error encoded as a negative
WatchID and record it in the last-error slot. -/
def addWatchFail (st : WatcherState) (e : Error) (dir : String) :
    Int × WatcherState :=
  (Error.toInt e, (createLastError st e (errorMessage e dir)).1)

/-- Modelled from the spec: `FileWatcher::addWatch` on the generic backend.
The directory (already canonicalized) is validated — missing, unreadable,
remote, already watched, or failing backend subscription each produce the
corresponding error, returned as a negative id and stored in the last-error
slot.  On success a fresh positive id is allocated monotonically and the
watch record is created with the snapshot taken synchronously from the
filesystem before the call returns. -/
def addWatch (st : WatcherState) (dir : String) (listener : Nat)
    (recursive : Bool) (fs : FsView) : Int × WatcherState :=
  if fs.present = false then addWatchFail st .FileNotFound dir
  else if fs.readable = false then addWatchFail st .FileNotReadable dir
  else if fs.remote = true then addWatchFail st .FileRemote dir
  else if st.watches.any (fun w => w.rootPath = dir) then
    addWatchFail st .FileRepeated dir
  else if fs.subscribeFails = true then addWatchFail st .WatcherFailed dir
  else
    (Int.ofNat st.nextId,
      { st with
        nextId := st.nextId + 1,
        watches := st.watches ++
          [{ id := st.nextId, rootPath := dir, listener := listener,
             recursive := recursive, snapshot := fs.snap }],
        issued := st.issued ++ [st.nextId] })

/-- Modelled from the spec: `FileWatcher::removeWatch(WatchID)` — removes
the watch with the given id; an unknown id is silently ignored. -/
def removeWatchById (st : WatcherState) (watchid : Nat) : WatcherState :=
  { st with watches := st.watches.filter (fun w => w.id ≠ watchid) }

/-- Modelled from the spec: `FileWatcher::removeWatch(directory)` — removes
the watch rooted at the given path; an unknown path is silently ignored. -/
def removeWatchByPath (st : WatcherState) (dir : String) : WatcherState :=
  { st with watches := st.watches.filter (fun w => w.rootPath ≠ dir) }

/-- Modelled from the spec: `FileWatcher::directories()` — the list of
currently watched roots. -/
def directories (st : WatcherState) : List String :=
  st.watches.map (fun w => w.rootPath)

/-- Invariant of the id allocator: ids start at 1 and every id ever issued
is below the allocator's next value, so no issued id can come back. -/
def WatcherInv (st : WatcherState) : Prop :=
  1 ≤ st.nextId ∧ ∀ i ∈ st.issued, i < st.nextId

instance (st : WatcherState) : Decidable (WatcherInv st) := by
  unfold WatcherInv
  infer_instance

/-- The throw message built by the `ScopedWatchListener` constructor in
`efsw.hpp` (quoting of the directory name elided). -/
def scopedWatchFailMessage (directory : String) : String :=
  "could not establish watch of " ++ directory

/-- From `efsw.hpp`: the body of the `ScopedWatchListener` constructor after
`addWatch` produced `watchId`.  The C++ runs `if (!mWatchID) throw ...`,
so it throws exactly when the id is zero and otherwise stores the id for
the later `removeWatch`. -/
def scopedWatchListenerInit (watchId : Int) (directory : String) :
    Except String Int :=
  if watchId = 0 then Except.error (scopedWatchFailMessage directory)
  else Except.ok watchId

/-- From `efsw.hpp`: the state of `ConvenientFileWatcher::DirectoryWatch` —
the shared id counter `mLastId`, the directory callbacks keyed by id, and
the file callbacks keyed by id holding a filename and a callback.
Callbacks themselves are opaque and represented by numeric references. -/
structure DirectoryWatchState where
  lastId : Nat
  directoryCallbacks : List (Nat × Nat)
  fileCallbacks : List (Nat × String × Nat)
deriving DecidableEq

/-- A `DirectoryWatch` with no callbacks yet, as built by its
constructor. -/
def emptyDirectoryWatch : DirectoryWatchState :=
  { lastId := 0, directoryCallbacks := [], fileCallbacks := [] }

/-- From `efsw.hpp`: `DirectoryWatch::addDirectoryCallback` — increments
`mLastId`, stores the callback under the new id and returns the id. -/
def addDirectoryCallback (st : DirectoryWatchState) (cb : Nat) :
    DirectoryWatchState × Nat :=
  ({ st with
      lastId := st.lastId + 1,
      directoryCallbacks := st.directoryCallbacks ++ [(st.lastId + 1, cb)] },
    st.lastId + 1)

/-- From `efsw.hpp`: `DirectoryWatch::addFileCallback` — increments
`mLastId`, stores the filename and callback under the new id and returns
the id. -/
def addFileCallback (st : DirectoryWatchState) (filename : String) (cb : Nat) :
    DirectoryWatchState × Nat :=
  ({ st with
      lastId := st.lastId + 1,
      fileCallbacks := st.fileCallbacks ++ [(st.lastId + 1, filename, cb)] },
    st.lastId + 1)

/-- From `efsw.hpp`: `DirectoryWatch::handle` — invokes every directory
callback with the event, then every file callback whose stored filename
equals the event's filename.  Returns the `(id, callback)` pairs invoked,
in invocation order. -/
def dwHandle (st : DirectoryWatchState) (filename : String) :
    List (Nat × Nat) :=
  st.directoryCallbacks ++
    (st.fileCallbacks.filter (fun c => c.2.1 = filename)).map
      (fun c => (c.1, c.2.2))

/-- Replace the value under a key in an association list, appending when the
key is absent (the effect of `ConvenientFileWatcher::getDirectoryWatch`
followed by mutation of the found watch). -/
def aset {α : Type} : List (String × α) → String → α → List (String × α)
  | [], d, w => [(d, w)]
  | e :: s, d, w => if e.1 = d then (d, w) :: s else e :: aset s d w

/-- From `efsw.hpp`: the `mDirectoryWatches` map of
`ConvenientFileWatcher`. -/
abbrev ConvenientState : Type := List (String × DirectoryWatchState)

/-- A path as `ConvenientFileWatcher::addWatch` inspects it: its full text,
its parent directory, its leaf name, and whether `is_directory` holds for
it on the filesystem. -/
structure PathView where
  full : String
  parent : String
  leaf : String
  isDir : Bool
deriving DecidableEq

/-- From `efsw.hpp`: `ConvenientFileWatcher::addWatch` — when the path is a
directory, a directory callback is registered on the watch for that
directory; otherwise a file callback keyed by the path's leaf name is
registered on the watch for the path's parent directory.  Returns the new
map state and the `(directory, id)` pair kept by the returned `Guard`. -/
def cfwAddWatch (st : ConvenientState) (path : PathView) (cb : Nat) :
    ConvenientState × String × Nat :=
  if path.isDir = true then
    let w := (alookup st path.full).getD emptyDirectoryWatch
    let r := addDirectoryCallback w cb
    (aset st path.full r.1, path.full, r.2)
  else
    let w := (alookup st path.parent).getD emptyDirectoryWatch
    let r := addFileCallback w path.leaf cb
    (aset st path.parent r.1, path.parent, r.2)

/-! ### Helper lemmas about association lists and snapshot diffs -/

theorem alookup_eq_none {α : Type} (s : List (String × α)) (n : String)
    (h : n ∉ s.map (fun e => e.1)) : alookup s n = none := by
  induction s with
  | nil => rfl
  | cons e t ih =>
    simp only [List.map_cons, List.mem_cons, not_or] at h
    simp only [alookup]
    rw [if_neg (fun he => h.1 he.symm)]
    exact ih h.2

theorem alookup_isSome {α : Type} (s : List (String × α)) (n : String)
    (h : n ∈ s.map (fun e => e.1)) : (alookup s n).isSome = true := by
  induction s with
  | nil => simp at h
  | cons e t ih =>
    simp only [List.map_cons, List.mem_cons] at h
    by_cases he : e.1 = n
    · simp [alookup, he]
    · simp only [alookup, if_neg he]
      rcases h with h | h
      · exact absurd h.symm he
      · exact ih h

theorem alookup_mem_nodup {α : Type} (s : List (String × α)) (x : String × α)
    (hx : x ∈ s) (h : (s.map (fun e => e.1)).Nodup) :
    alookup s x.1 = some x.2 := by
  induction s with
  | nil => simp at hx
  | cons e t ih =>
    simp only [List.map_cons, List.nodup_cons] at h
    rcases List.mem_cons.mp hx with rfl | hx
    · simp [alookup]
    · have hne : e.1 ≠ x.1 := by
        intro he
        exact h.1 (he ▸ List.mem_map_of_mem (fun e => e.1) hx)
      simp only [alookup, if_neg hne]
      exact ih hx h.2

theorem names_append_cons (u v : Snapshot) (a : String) (m : FileMeta) :
    names (u ++ (a, m) :: v) = names u ++ a :: names v := by
  simp [names]

theorem names_def (s : Snapshot) : s.map (fun e => e.1) = names s := rfl

theorem alookup_isNone_false {α : Type} (s : List (String × α)) (n : String)
    (h : n ∈ s.map (fun e => e.1)) : (alookup s n).isNone = false := by
  have hs := alookup_isSome s n h
  cases hv : alookup s n with
  | none => rw [hv] at hs; simp at hs
  | some w => rfl

theorem deleted_rename (u v : Snapshot) (a b : String) (m : FileMeta)
    (hnd : (names (u ++ (a, m) :: v)).Nodup)
    (hab : a ≠ b) :
    deletedEntries (u ++ (a, m) :: v) (u ++ (b, m) :: v) = [(a, m)] := by
  rw [names_append_cons] at hnd
  have hau : a ∉ names u := fun h =>
    (List.nodup_append.mp hnd).2.2 h (List.mem_cons_self a _)
  have hav : a ∉ names v :=
    (List.nodup_cons.mp (List.nodup_append.mp hnd).2.1).1
  have hanew : a ∉ names u ++ b :: names v := by
    intro h
    rcases List.mem_append.mp h with h | h
    · exact hau h
    · rcases List.mem_cons.mp h with h | h
      · exact hab h
      · exact hav h
  have hlook_a : alookup (u ++ (b, m) :: v) a = none := by
    apply alookup_eq_none
    rw [names_def, names_append_cons]
    exact hanew
  have hdropU : ∀ x ∈ u, ((alookup (u ++ (b, m) :: v) x.1).isNone = false) := by
    intro x hx
    apply alookup_isNone_false
    rw [names_def, names_append_cons]
    exact List.mem_append_left _ (List.mem_map_of_mem (fun e => e.1) hx)
  have hdropV : ∀ x ∈ v, ((alookup (u ++ (b, m) :: v) x.1).isNone = false) := by
    intro x hx
    apply alookup_isNone_false
    rw [names_def, names_append_cons]
    exact List.mem_append_right _
      (List.mem_cons_of_mem b (List.mem_map_of_mem (fun e => e.1) hx))
  unfold deletedEntries
  rw [List.filter_append, List.filter_cons]
  rw [List.filter_eq_nil_iff.mpr (fun x hx => by rw [hdropU x hx]; simp)]
  rw [List.filter_eq_nil_iff.mpr (fun x hx => by rw [hdropV x hx]; simp)]
  rw [if_pos (by rw [hlook_a]; rfl)]
  simp

theorem added_rename (u v : Snapshot) (a b : String) (m : FileMeta)
    (hb : b ∉ names (u ++ (a, m) :: v)) :
    addedEntries (u ++ (a, m) :: v) (u ++ (b, m) :: v) = [(b, m)] := by
  rw [names_append_cons] at hb
  have hlook_b : alookup (u ++ (a, m) :: v) b = none := by
    apply alookup_eq_none
    rw [names_def, names_append_cons]
    exact hb
  have hdropU : ∀ x ∈ u, ((alookup (u ++ (a, m) :: v) x.1).isNone = false) := by
    intro x hx
    apply alookup_isNone_false
    rw [names_def, names_append_cons]
    exact List.mem_append_left _ (List.mem_map_of_mem (fun e => e.1) hx)
  have hdropV : ∀ x ∈ v, ((alookup (u ++ (a, m) :: v) x.1).isNone = false) := by
    intro x hx
    apply alookup_isNone_false
    rw [names_def, names_append_cons]
    exact List.mem_append_right _
      (List.mem_cons_of_mem a (List.mem_map_of_mem (fun e => e.1) hx))
  unfold addedEntries
  rw [List.filter_append, List.filter_cons]
  rw [List.filter_eq_nil_iff.mpr (fun x hx => by rw [hdropU x hx]; simp)]
  rw [List.filter_eq_nil_iff.mpr (fun x hx => by rw [hdropV x hx]; simp)]
  rw [if_pos (by rw [hlook_b]; rfl)]
  simp

theorem modified_rename (u v : Snapshot) (a b : String) (m : FileMeta)
    (hnd : (names (u ++ (a, m) :: v)).Nodup)
    (hb : b ∉ names (u ++ (a, m) :: v)) :
    modifiedEntries (u ++ (a, m) :: v) (u ++ (b, m) :: v) = [] := by
  have hlook_b : alookup (u ++ (a, m) :: v) b = none := by
    apply alookup_eq_none
    rw [names_def]
    exact hb
  apply List.filterMap_eq_nil_iff.mpr
  intro e he
  rcases List.mem_append.mp he with he | he
  · have hmem : e ∈ u ++ (a, m) :: v := List.mem_append_left _ he
    rw [alookup_mem_nodup _ e hmem hnd]
    simp
  · rcases List.mem_cons.mp he with rfl | he
    · rw [hlook_b]
    · have hmem : e ∈ u ++ (a, m) :: v :=
        List.mem_append_right _ (List.mem_cons_of_mem _ he)
      rw [alookup_mem_nodup _ e hmem hnd]
      simp

theorem coalesce_single (a b : String) (m : FileMeta) (i : Nat)
    (hi : m.inode = some i) :
    coalesceMoves [(a, m)] [(b, m)] = ([(a, b)], [], []) := by
  simp [coalesceMoves, hi, List.find?, List.eraseP]

theorem pairwise_rank_blocks (l1 l2 l3 l4 : List Event)
    (h1 : ∀ e ∈ l1, e.action = .Delete) (h2 : ∀ e ∈ l2, e.action = .Moved)
    (h3 : ∀ e ∈ l3, e.action = .Add) (h4 : ∀ e ∈ l4, e.action = .Modified) :
    List.Pairwise (fun e f => actionRank e.action ≤ actionRank f.action)
      (l1 ++ l2 ++ l3 ++ l4) := by
  have pw : ∀ (l : List Event) (act : Action), (∀ e ∈ l, e.action = act) →
      List.Pairwise (fun e f : Event =>
        actionRank e.action ≤ actionRank f.action) l := by
    intro l act h
    apply List.pairwise_of_forall_mem_list
    intro a ha b hb
    rw [h a ha, h b hb]
  have hm123 : ∀ a ∈ l1 ++ l2 ++ l3, actionRank a.action ≤ 2 := by
    intro a ha
    rcases List.mem_append.mp ha with ha | ha
    · rcases List.mem_append.mp ha with ha | ha
      · rw [h1 a ha]; decide
      · rw [h2 a ha]; decide
    · rw [h3 a ha]; decide
  rw [List.pairwise_append]
  refine ⟨?_, pw l4 .Modified h4, ?_⟩
  · rw [List.pairwise_append]
    refine ⟨?_, pw l3 .Add h3, ?_⟩
    · rw [List.pairwise_append]
      refine ⟨pw l1 .Delete h1, pw l2 .Moved h2, ?_⟩
      intro a ha b hb
      rw [h1 a ha, h2 b hb]
      decide
    · intro a ha b hb
      rw [h3 b hb]
      rcases List.mem_append.mp ha with ha | ha
      · rw [h1 a ha]; decide
      · rw [h2 a ha]; decide
  · intro a ha b hb
    rw [h4 b hb]
    calc actionRank a.action ≤ 2 := hm123 a ha
      _ ≤ actionRank .Modified := by decide

theorem coalesce_moves_sound (dels : List (String × FileMeta)) :
    ∀ (adds : List (String × FileMeta)) (o n : String),
      (o, n) ∈ (coalesceMoves dels adds).1 →
      ∃ md ma i, (o, md) ∈ dels ∧ (n, ma) ∈ adds ∧
        md.inode = some i ∧ ma.inode = some i := by
  induction dels with
  | nil => intro adds o n h; simp [coalesceMoves] at h
  | cons d ds ih =>
    intro adds o n h
    cases hmi : d.2.inode with
    | none =>
      simp only [coalesceMoves, hmi] at h
      obtain ⟨md, ma, i, h1, h2, h3, h4⟩ := ih adds o n h
      exact ⟨md, ma, i, List.mem_cons_of_mem d h1, h2, h3, h4⟩
    | some i =>
      cases hf : adds.find? (fun a => a.2.inode = some i) with
      | none =>
        simp only [coalesceMoves, hmi, hf] at h
        obtain ⟨md, ma, j, h1, h2, h3, h4⟩ := ih adds o n h
        exact ⟨md, ma, j, List.mem_cons_of_mem d h1, h2, h3, h4⟩
      | some a =>
        simp only [coalesceMoves, hmi, hf, List.mem_cons] at h
        rcases h with h | h
        · have hpa : (a.2.inode = some i) := by
            have := List.find?_some hf
            exact of_decide_eq_true this
          have hma : a ∈ adds := List.mem_of_find?_eq_some hf
          obtain ⟨ho, hn⟩ := Prod.mk.injEq .. ▸ h
          refine ⟨d.2, a.2, i, ?_, ?_, hmi, hpa⟩
          · rw [ho]
            exact List.mem_cons_self _ _
          · rw [hn]
            exact hma
        · obtain ⟨md, ma, j, h1, h2, h3, h4⟩ :=
            ih (adds.eraseP (fun a => a.2.inode = some i)) o n h
          exact ⟨md, ma, j, List.mem_cons_of_mem d h1,
            List.eraseP_subset adds h2, h3, h4⟩

theorem coalesce_keeps_noinode_del (dels : List (String × FileMeta)) :
    ∀ (adds : List (String × FileMeta)) (d : String × FileMeta),
      d ∈ dels → d.2.inode = none → d ∈ (coalesceMoves dels adds).2.1 := by
  induction dels with
  | nil => intro adds d h; simp at h
  | cons e ds ih =>
    intro adds d hd hnone
    rcases List.mem_cons.mp hd with rfl | hd
    · simp [coalesceMoves, hnone]
    · cases hmi : e.2.inode with
      | none =>
        simp only [coalesceMoves, hmi, List.mem_cons]
        exact Or.inr (ih adds d hd hnone)
      | some i =>
        cases hf : adds.find? (fun a => a.2.inode = some i) with
        | none =>
          simp only [coalesceMoves, hmi, hf, List.mem_cons]
          exact Or.inr (ih adds d hd hnone)
        | some a =>
          simp only [coalesceMoves, hmi, hf]
          exact ih _ d hd hnone

theorem coalesce_keeps_noinode_add (dels : List (String × FileMeta)) :
    ∀ (adds : List (String × FileMeta)) (a : String × FileMeta),
      a ∈ adds → a.2.inode = none → a ∈ (coalesceMoves dels adds).2.2 := by
  induction dels with
  | nil => intro adds a ha _; simpa [coalesceMoves] using ha
  | cons e ds ih =>
    intro adds a ha hnone
    cases hmi : e.2.inode with
    | none =>
      simp only [coalesceMoves, hmi]
      exact ih adds a ha hnone
    | some i =>
      cases hf : adds.find? (fun x => x.2.inode = some i) with
      | none =>
        simp only [coalesceMoves, hmi, hf]
        exact ih adds a ha hnone
      | some b =>
        simp only [coalesceMoves, hmi, hf]
        apply ih
        · rw [List.mem_eraseP_of_neg]
          · exact ha
          · simp [hnone]
        · exact hnone

theorem deletedEntries_self (s : Snapshot) : deletedEntries s s = [] := by
  apply List.filter_eq_nil_iff.mpr
  intro x hx
  rw [alookup_isNone_false s x.1 (List.mem_map_of_mem (fun e => e.1) hx)]
  simp

theorem addedEntries_self (s : Snapshot) : addedEntries s s = [] := by
  apply List.filter_eq_nil_iff.mpr
  intro x hx
  rw [alookup_isNone_false s x.1 (List.mem_map_of_mem (fun e => e.1) hx)]
  simp

theorem cycleEvents_self (wid : Int) (dir : String) (s : Snapshot) :
    cycleEvents wid dir s s =
      (modifiedEntries s s).map
        (fun m => Event.mk wid dir m.1 .Modified "") := by
  simp only [cycleEvents, deletedEntries_self, addedEntries_self]
  simp [coalesceMoves]

theorem cycle_self_no_add (wid : Int) (dir : String) (s : Snapshot) :
    ∀ e ∈ cycleEvents wid dir s s, e.action ≠ .Add := by
  intro e he
  rw [cycleEvents_self] at he
  obtain ⟨x, hx, rfl⟩ := List.mem_map.mp he
  simp

theorem addWatch_neg_spec (st : WatcherState) (dir : String) (listener : Nat)
    (recursive : Bool) (fs : FsView)
    (hf : (addWatch st dir listener recursive fs).1 < 0) :
    ∃ e : Error, e ≠ .NoError ∧
      addWatch st dir listener recursive fs =
        (Error.toInt e, (createLastError st e (errorMessage e dir)).1) := by
  by_cases h1 : fs.present = false
  · exact ⟨.FileNotFound, by decide, by simp [addWatch, h1, addWatchFail]⟩
  by_cases h2 : fs.readable = false
  · exact ⟨.FileNotReadable, by decide, by simp [addWatch, h1, h2, addWatchFail]⟩
  by_cases h3 : fs.remote = true
  · exact ⟨.FileRemote, by decide, by simp [addWatch, h1, h2, h3, addWatchFail]⟩
  by_cases h4 : st.watches.any (fun w => w.rootPath = dir) = true
  · exact ⟨.FileRepeated, by decide,
      by simp [addWatch, h1, h2, h3, h4, addWatchFail]⟩
  by_cases h5 : fs.subscribeFails = true
  · exact ⟨.WatcherFailed, by decide,
      by simp [addWatch, h1, h2, h3, h4, h5, addWatchFail]⟩
  · exfalso
    simp only [addWatch, h1, h2, h3, h4, h5, if_false] at hf
    exact absurd hf (by simp)

/-! ### Claims -/

/-- C1 (amended): for a rename of a single leaf within one watched directory
whose entry carries an available inode, one generic-backend cycle delivers
exactly one event, with action Moved, filename the new leaf and oldFilename
the previous leaf — not a separate Delete plus Add pair. -/
theorem claim_C1 (wid : Int) (dir : String) (u v : Snapshot) (a b : String)
    (m : FileMeta) (i : Nat)
    (hi : m.inode = some i)
    (hnd : (names (u ++ (a, m) :: v)).Nodup)
    (hb : b ∉ names (u ++ (a, m) :: v))
    (hab : a ≠ b) :
    cycleEvents wid dir (u ++ (a, m) :: v) (u ++ (b, m) :: v) =
      [Event.mk wid dir b .Moved a] := by
  unfold cycleEvents
  rw [deleted_rename u v a b m hnd hab, added_rename u v a b m hb,
    modified_rename u v a b m hnd hb]
  simp [coalesce_single a b m i hi]

/-- C1 counterexample: when the renamed entry has no inode available, the
generic backend reports the same-parent rename of `d.txt` to `e.txt` as a
Delete followed by an Add, not as a single Moved event — so the claim as
stated, with no proviso on inode availability, fails. -/
theorem claim_C1_counterexample :
    cycleEvents 1 "T" [("d.txt", FileMeta.mk false 1 1 none)]
        [("e.txt", FileMeta.mk false 1 1 none)] =
      [Event.mk 1 "T" "d.txt" .Delete "", Event.mk 1 "T" "e.txt" .Add ""] ∧
    ∀ e ∈ cycleEvents 1 "T" [("d.txt", FileMeta.mk false 1 1 none)]
        [("e.txt", FileMeta.mk false 1 1 none)], e.action ≠ .Moved := by
  decide

/-- Witness for C1 at a concrete rename with an available inode. -/
theorem claim_C1_witness :
    cycleEvents 1 "T" [("d.txt", FileMeta.mk false 1 1 (some 5))]
        [("e.txt", FileMeta.mk false 1 1 (some 5))] =
      [Event.mk 1 "T" "e.txt" .Moved "d.txt"] :=
  claim_C1 1 "T" [] [] "d.txt" "e.txt" (FileMeta.mk false 1 1 (some 5)) 5
    rfl (by decide) (by decide) (by decide)

/-- C2: within one generic-backend cycle for one directory, the emitted
events are ordered Delete before Add before Modified (witnessed by
`actionRank` being monotone along the list); every Moved event comes from
a deleted entry and an added entry sharing the same available inode; and a
deleted or added entry without an inode is emitted as a separate Delete or
Add, never coalesced. -/
theorem claim_C2 (wid : Int) (dir : String) (old new : Snapshot) :
    List.Pairwise (fun e f => actionRank e.action ≤ actionRank f.action)
      (cycleEvents wid dir old new) ∧
    (∀ e ∈ cycleEvents wid dir old new, e.action = .Moved →
      ∃ md ma i, (e.oldFilename, md) ∈ deletedEntries old new ∧
        (e.filename, ma) ∈ addedEntries old new ∧
        md.inode = some i ∧ ma.inode = some i) ∧
    (∀ d ∈ deletedEntries old new, d.2.inode = none →
      Event.mk wid dir d.1 .Delete "" ∈ cycleEvents wid dir old new) ∧
    (∀ a ∈ addedEntries old new, a.2.inode = none →
      Event.mk wid dir a.1 .Add "" ∈ cycleEvents wid dir old new) := by
  refine ⟨?_, ?_, ?_, ?_⟩
  · unfold cycleEvents
    apply pairwise_rank_blocks <;>
      · intro e he
        obtain ⟨x, _, rfl⟩ := List.mem_map.mp he
        rfl
  · intro e he hmoved
    simp only [cycleEvents, List.mem_append, List.mem_map] at he
    rcases he with ((⟨d, _, rfl⟩ | ⟨p, hp, rfl⟩) | ⟨a, _, rfl⟩) | ⟨m, _, rfl⟩
    · exact absurd hmoved (by simp)
    · obtain ⟨md, ma, i, h1, h2, h3, h4⟩ :=
        coalesce_moves_sound (deletedEntries old new) (addedEntries old new)
          p.1 p.2 hp
      exact ⟨md, ma, i, h1, h2, h3, h4⟩
    · exact absurd hmoved (by simp)
    · exact absurd hmoved (by simp)
  · intro d hd hnone
    have hmem := coalesce_keeps_noinode_del (deletedEntries old new)
      (addedEntries old new) d hd hnone
    simp only [cycleEvents, List.mem_append, List.mem_map]
    exact Or.inl (Or.inl (Or.inl ⟨d, hmem, rfl⟩))
  · intro a ha hnone
    have hmem := coalesce_keeps_noinode_add (deletedEntries old new)
      (addedEntries old new) a ha hnone
    simp only [cycleEvents, List.mem_append, List.mem_map]
    exact Or.inl (Or.inr ⟨a, hmem, rfl⟩)

/-- C3: when a directory is already watched under a given canonical path, a
second addWatch for the same path returns FileRepeated (as a negative id),
records FileRepeated in the last-error slot, and leaves the registry — every
existing watch record with its id, root path, listener, recursive flag and
snapshot — and the id allocator unchanged. -/
theorem claim_C3 (st : WatcherState) (dir : String) (listener : Nat)
    (recursive : Bool) (fs : FsView)
    (hp : fs.present = true) (hr : fs.readable = true) (hm : fs.remote = false)
    (hdup : ∃ w ∈ st.watches, w.rootPath = dir) :
    (addWatch st dir listener recursive fs).1 = Error.toInt .FileRepeated ∧
    (addWatch st dir listener recursive fs).2.watches = st.watches ∧
    (addWatch st dir listener recursive fs).2.nextId = st.nextId ∧
    getLastErrorCode (addWatch st dir listener recursive fs).2 =
      .FileRepeated := by
  have hany : st.watches.any (fun w => w.rootPath = dir) = true := by
    obtain ⟨w, hw, he⟩ := hdup
    exact List.any_eq_true.mpr ⟨w, hw, by simp [he]⟩
  simp [addWatch, hp, hr, hm, hany, addWatchFail, createLastError,
    getLastErrorCode]

/-- Witness for C3: a duplicate add of the already-watched root. -/
theorem claim_C3_witness :
    (addWatch (WatcherState.mk 2 [WatchRecord.mk 1 "T" 0 false []] [1] none)
        "T" 0 false (FsView.mk true true false false [])).1 = -2 ∧
    (addWatch (WatcherState.mk 2 [WatchRecord.mk 1 "T" 0 false []] [1] none)
        "T" 0 false (FsView.mk true true false false [])).2.watches =
      [WatchRecord.mk 1 "T" 0 false []] := by
  have h := claim_C3 (WatcherState.mk 2 [WatchRecord.mk 1 "T" 0 false []]
      [1] none) "T" 0 false (FsView.mk true true false false [])
    rfl rfl rfl ⟨WatchRecord.mk 1 "T" 0 false [], by decide, rfl⟩
  exact ⟨h.1, h.2.1⟩

/-- C4: a successful addWatch appends a watch record whose snapshot is the
directory listing taken synchronously from the filesystem before the call
returns, and a first polling cycle over an unchanged directory emits no Add
event for the pre-existing entries. -/
theorem claim_C4 (st : WatcherState) (dir : String) (listener : Nat)
    (recursive : Bool) (fs : FsView)
    (hs : 0 < (addWatch st dir listener recursive fs).1) :
    (addWatch st dir listener recursive fs).2.watches =
      st.watches ++
        [WatchRecord.mk st.nextId dir listener recursive fs.snap] ∧
    ∀ e ∈ cycleEvents (Int.ofNat st.nextId) dir fs.snap fs.snap,
      e.action ≠ .Add := by
  refine ⟨?_, cycle_self_no_add (Int.ofNat st.nextId) dir fs.snap⟩
  by_cases h1 : fs.present = false
  · simp [addWatch, h1, addWatchFail, Error.toInt] at hs
  by_cases h2 : fs.readable = false
  · simp [addWatch, h1, h2, addWatchFail, Error.toInt] at hs
  by_cases h3 : fs.remote = true
  · simp [addWatch, h1, h2, h3, addWatchFail, Error.toInt] at hs
  by_cases h4 : st.watches.any (fun w => w.rootPath = dir) = true
  · simp [addWatch, h1, h2, h3, h4, addWatchFail, Error.toInt] at hs
  by_cases h5 : fs.subscribeFails = true
  · simp [addWatch, h1, h2, h3, h4, h5, addWatchFail, Error.toInt] at hs
  · simp [addWatch, h1, h2, h3, h4, h5]

/-- Witness for C4: adding a watch over a directory that already holds
`a.txt`. -/
theorem claim_C4_witness :
    (addWatch initialWatcherState "T" 0 false
        (FsView.mk true true false false
          [("a.txt", FileMeta.mk false 1 1 (some 3))])).2.watches =
      [WatchRecord.mk 1 "T" 0 false
        [("a.txt", FileMeta.mk false 1 1 (some 3))]] ∧
    ∀ e ∈ cycleEvents 1 "T" [("a.txt", FileMeta.mk false 1 1 (some 3))]
        [("a.txt", FileMeta.mk false 1 1 (some 3))], e.action ≠ .Add := by
  have h := claim_C4 initialWatcherState "T" 0 false
    (FsView.mk true true false false
      [("a.txt", FileMeta.mk false 1 1 (some 3))]) (by decide)
  exact ⟨h.1, h.2⟩

/-- C5: a failing addWatch signals the error on both channels — it returns
the error code encoded as a negative WatchID and stores the same code with
its message in the process-wide last-error slot, which getLastErrorCode and
getLastErrorLog read back until clearLastError resets it. -/
theorem claim_C5 (st : WatcherState) (dir : String) (listener : Nat)
    (recursive : Bool) (fs : FsView)
    (hf : (addWatch st dir listener recursive fs).1 < 0) :
    ∃ e : Error, e ≠ .NoError ∧
      (addWatch st dir listener recursive fs).1 = Error.toInt e ∧
      getLastErrorCode (addWatch st dir listener recursive fs).2 = e ∧
      getLastErrorLog (addWatch st dir listener recursive fs).2 =
        errorMessage e dir ∧
      getLastErrorCode
        (clearLastError (addWatch st dir listener recursive fs).2) =
        .NoError ∧
      getLastErrorLog
        (clearLastError (addWatch st dir listener recursive fs).2) = "" := by
  obtain ⟨e, hne, heq⟩ := addWatch_neg_spec st dir listener recursive fs hf
  refine ⟨e, hne, ?_, ?_, ?_, ?_, ?_⟩ <;>
    rw [heq] <;>
    simp [createLastError, getLastErrorCode, getLastErrorLog, clearLastError]

/-- Witness for C5: adding a watch on a missing directory. -/
theorem claim_C5_witness :
    ∃ e : Error, e ≠ .NoError ∧
      (addWatch initialWatcherState "missing" 0 false
        (FsView.mk false true false false [])).1 = Error.toInt e ∧
      getLastErrorCode (addWatch initialWatcherState "missing" 0 false
        (FsView.mk false true false false [])).2 = e ∧
      getLastErrorLog (addWatch initialWatcherState "missing" 0 false
        (FsView.mk false true false false [])).2 =
        errorMessage e "missing" ∧
      getLastErrorCode (clearLastError
        (addWatch initialWatcherState "missing" 0 false
          (FsView.mk false true false false [])).2) = .NoError ∧
      getLastErrorLog (clearLastError
        (addWatch initialWatcherState "missing" 0 false
          (FsView.mk false true false false [])).2) = "" :=
  claim_C5 initialWatcherState "missing" 0 false
    (FsView.mk false true false false []) (by decide)

/-- C6: addWatch never returns zero; a successful addWatch returns the
allocator's current value, which was never issued before, records it as
issued, and preserves the allocator invariant; and removing a watch does
not disturb the allocator or the set of issued ids, so an id is never
reused during the watcher's lifetime. -/
theorem claim_C6 (st : WatcherState) (dir : String) (listener : Nat)
    (recursive : Bool) (fs : FsView) (hinv : WatcherInv st) :
    (addWatch st dir listener recursive fs).1 ≠ 0 ∧
    WatcherInv (addWatch st dir listener recursive fs).2 ∧
    (0 < (addWatch st dir listener recursive fs).1 →
      (addWatch st dir listener recursive fs).1 = Int.ofNat st.nextId ∧
      (addWatch st dir listener recursive fs).1.toNat ∉ st.issued ∧
      (addWatch st dir listener recursive fs).2.issued =
        st.issued ++ [(addWatch st dir listener recursive fs).1.toNat]) ∧
    (∀ i : Nat,
      (removeWatchById (addWatch st dir listener recursive fs).2 i).issued =
        (addWatch st dir listener recursive fs).2.issued ∧
      (removeWatchById (addWatch st dir listener recursive fs).2 i).nextId =
        (addWatch st dir listener recursive fs).2.nextId) := by
  have hrem : ∀ (stx : WatcherState) (i : Nat),
      (removeWatchById stx i).issued = stx.issued ∧
      (removeWatchById stx i).nextId = stx.nextId := by
    intro stx i
    exact ⟨rfl, rfl⟩
  by_cases hneg : (addWatch st dir listener recursive fs).1 < 0
  · obtain ⟨e, hne, heq⟩ := addWatch_neg_spec st dir listener recursive fs hneg
    refine ⟨?_, ?_, ?_, fun i => hrem _ i⟩
    · rw [heq]
      cases e <;> simp_all [Error.toInt]
    · rw [heq]
      exact hinv
    · intro hpos
      rw [heq] at hpos
      exact absurd hpos (by cases e <;> simp_all [Error.toInt])
  · have hsucc : addWatch st dir listener recursive fs =
        (Int.ofNat st.nextId,
          { st with
            nextId := st.nextId + 1,
            watches := st.watches ++
              [WatchRecord.mk st.nextId dir listener recursive fs.snap],
            issued := st.issued ++ [st.nextId] }) := by
      by_cases h1 : fs.present = false
      · simp [addWatch, h1, addWatchFail, Error.toInt] at hneg
      by_cases h2 : fs.readable = false
      · simp [addWatch, h1, h2, addWatchFail, Error.toInt] at hneg
      by_cases h3 : fs.remote = true
      · simp [addWatch, h1, h2, h3, addWatchFail, Error.toInt] at hneg
      by_cases h4 : st.watches.any (fun w => w.rootPath = dir) = true
      · simp [addWatch, h1, h2, h3, h4, addWatchFail, Error.toInt] at hneg
      by_cases h5 : fs.subscribeFails = true
      · simp [addWatch, h1, h2, h3, h4, h5, addWatchFail, Error.toInt] at hneg
      · simp [addWatch, h1, h2, h3, h4, h5]
    obtain ⟨hone, htwo⟩ := hinv
    refine ⟨?_, ?_, ?_, fun i => hrem _ i⟩
    · rw [hsucc]
      simp
      omega
    · rw [hsucc]
      constructor
      · simp
      · intro i hi
        simp at hi
        rcases hi with hi | hi
        · have := htwo i hi
          simp
          omega
        · simp [hi]
    · intro _
      rw [hsucc]
      refine ⟨rfl, ?_, by simp⟩
      intro hmem
      have := htwo st.nextId (by simpa using hmem)
      omega

/-- Witness for C6: the first add on a fresh watcher returns id 1. -/
theorem claim_C6_witness :
    (addWatch initialWatcherState "T" 0 false
      (FsView.mk true true false false [])).1 ≠ 0 ∧
    (addWatch initialWatcherState "T" 0 false
      (FsView.mk true true false false [])).1.toNat ∉
      initialWatcherState.issued := by
  have h := claim_C6 initialWatcherState "T" 0 false
    (FsView.mk true true false false []) (by decide)
  exact ⟨h.1, (h.2.2.1 (by decide)).2.1⟩

/-- C7: the error codes have exactly the values NoError = 0 through
Unspecified = -7, and a failing addWatch returns one of these codes as a
negative watch id. -/
theorem claim_C7 :
    Error.toInt .NoError = 0 ∧ Error.toInt .FileNotFound = -1 ∧
    Error.toInt .FileRepeated = -2 ∧ Error.toInt .FileOutOfScope = -3 ∧
    Error.toInt .FileNotReadable = -4 ∧ Error.toInt .FileRemote = -5 ∧
    Error.toInt .WatcherFailed = -6 ∧ Error.toInt .Unspecified = -7 ∧
    ∀ (st : WatcherState) (dir : String) (listener : Nat) (recursive : Bool)
      (fs : FsView), (addWatch st dir listener recursive fs).1 < 0 →
        ∃ e : Error,
          (addWatch st dir listener recursive fs).1 = Error.toInt e ∧
          Error.toInt e < 0 := by
  refine ⟨rfl, rfl, rfl, rfl, rfl, rfl, rfl, rfl, ?_⟩
  intro st dir listener recursive fs hf
  obtain ⟨e, hne, heq⟩ := addWatch_neg_spec st dir listener recursive fs hf
  refine ⟨e, by rw [heq], ?_⟩
  cases e
  · exact absurd rfl hne
  all_goals decide

/-- Witness for C7 at a concrete failing add (missing directory). -/
theorem claim_C7_witness :
    ∃ e : Error,
      (addWatch initialWatcherState "missing" 0 false
        (FsView.mk false true false false [])).1 = Error.toInt e ∧
      Error.toInt e < 0 :=
  claim_C7.2.2.2.2.2.2.2.2 initialWatcherState "missing" 0 false
    (FsView.mk false true false false []) (by decide)

/-- C8: removing a watch by an id or path that is not registered leaves the
watcher state — and hence the registry and `directories()` — entirely
unchanged, and removing twice behaves like removing once. -/
theorem claim_C8 (st : WatcherState) (watchid : Nat) (dir : String)
    (hid : ∀ w ∈ st.watches, w.id ≠ watchid)
    (hpath : ∀ w ∈ st.watches, w.rootPath ≠ dir) :
    removeWatchById st watchid = st ∧
    removeWatchByPath st dir = st ∧
    directories (removeWatchById st watchid) = directories st ∧
    directories (removeWatchByPath st dir) = directories st ∧
    (∀ (st2 : WatcherState) (i : Nat),
      removeWatchById (removeWatchById st2 i) i = removeWatchById st2 i) ∧
    (∀ (st2 : WatcherState) (d : String),
      removeWatchByPath (removeWatchByPath st2 d) d =
        removeWatchByPath st2 d) := by
  have h1 : removeWatchById st watchid = st := by
    unfold removeWatchById
    rw [List.filter_eq_self.mpr (fun w hw => by simpa using hid w hw)]
  have h2 : removeWatchByPath st dir = st := by
    unfold removeWatchByPath
    rw [List.filter_eq_self.mpr (fun w hw => by simpa using hpath w hw)]
  refine ⟨h1, h2, by rw [h1], by rw [h2], ?_, ?_⟩
  · intro st2 i
    simp [removeWatchById, List.filter_filter]
  · intro st2 d
    simp [removeWatchByPath, List.filter_filter]

/-- Witness for C8: removing an unknown id and an unknown path from a
watcher holding one watch. -/
theorem claim_C8_witness :
    removeWatchById
        (WatcherState.mk 2 [WatchRecord.mk 1 "T" 0 false []] [1] none) 7 =
      WatcherState.mk 2 [WatchRecord.mk 1 "T" 0 false []] [1] none ∧
    removeWatchByPath
        (WatcherState.mk 2 [WatchRecord.mk 1 "T" 0 false []] [1] none) "U" =
      WatcherState.mk 2 [WatchRecord.mk 1 "T" 0 false []] [1] none := by
  have h := claim_C8
    (WatcherState.mk 2 [WatchRecord.mk 1 "T" 0 false []] [1] none) 7 "U"
    (by decide) (by decide)
  exact ⟨h.1, h.2.1⟩

/-- C9: the `ScopedWatchListener` constructor throws exactly when the id
returned by addWatch is zero; every non-zero id — including the negative
ids that encode errors — completes construction and is stored for the
later removeWatch. -/
theorem claim_C9 (watchId : Int) (directory : String) :
    ((∃ msg, scopedWatchListenerInit watchId directory =
        Except.error msg) ↔ watchId = 0) ∧
    (watchId ≠ 0 →
      scopedWatchListenerInit watchId directory = Except.ok watchId) := by
  by_cases h : watchId = 0 <;>
    simp [scopedWatchListenerInit, h]

/-- Witness for C9: id -2 (the FileRepeated error encoding) does not throw
and is stored. -/
theorem claim_C9_witness :
    (-2 : Int) ≠ 0 ∧
    scopedWatchListenerInit (-2) "T" = Except.ok (-2) :=
  ⟨by decide, (claim_C9 (-2) "T").2 (by decide)⟩

theorem alookup_aset {α : Type} (s : List (String × α)) (d : String) (w : α) :
    alookup (aset s d w) d = some w := by
  induction s with
  | nil => simp [aset, alookup]
  | cons e t ih =>
    by_cases he : e.1 = d
    · simp [aset, he, alookup]
    · simp only [aset, if_neg he, alookup]
      exact ih

/-- C10: `DirectoryWatch::handle` invokes every registered directory
callback on the event and invokes a file callback exactly when its stored
filename equals the event's filename; and `ConvenientFileWatcher::addWatch`
registers a directory callback on the watch of the path itself when the
path is a directory, and otherwise a file callback, keyed by the path's
leaf name, on the watch of the path's parent directory. -/
theorem claim_C10 :
    (∀ (st : DirectoryWatchState) (fn : String) (c : Nat × Nat),
      c ∈ st.directoryCallbacks → c ∈ dwHandle st fn) ∧
    (∀ (st : DirectoryWatchState) (fn : String) (idc : Nat) (f : String)
        (cb : Nat),
      (idc, f, cb) ∈ st.fileCallbacks →
      (∀ d ∈ st.directoryCallbacks, d.1 ≠ idc) →
      (st.fileCallbacks.map (fun c => c.1)).Nodup →
      ((idc, cb) ∈ dwHandle st fn ↔ f = fn)) ∧
    (∀ (st : ConvenientState) (path : PathView) (cb : Nat),
      path.isDir = true →
      (cfwAddWatch st path cb).2.1 = path.full ∧
      ∃ w, alookup (cfwAddWatch st path cb).1 path.full = some w ∧
        ((cfwAddWatch st path cb).2.2, cb) ∈ w.directoryCallbacks) ∧
    (∀ (st : ConvenientState) (path : PathView) (cb : Nat),
      path.isDir = false →
      (cfwAddWatch st path cb).2.1 = path.parent ∧
      ∃ w, alookup (cfwAddWatch st path cb).1 path.parent = some w ∧
        ((cfwAddWatch st path cb).2.2, path.leaf, cb) ∈ w.fileCallbacks) := by
  refine ⟨?_, ?_, ?_, ?_⟩
  · intro st fn c hc
    exact List.mem_append_left _ hc
  · intro st fn idc f cb hmem hdisj hnd
    constructor
    · intro hin
      rcases List.mem_append.mp hin with hin | hin
      · exact absurd rfl (hdisj (idc, cb) hin)
      · obtain ⟨c, hc, hceq⟩ := List.mem_map.mp hin
        have hcmem : c ∈ st.fileCallbacks := List.mem_of_mem_filter hc
        have hcfn : c.2.1 = fn := by
          have := List.of_mem_filter hc
          exact of_decide_eq_true this
        have hcid : c.1 = idc := congrArg Prod.fst hceq
        have hceq2 : c = (idc, f, cb) :=
          List.inj_on_of_nodup_map hnd hcmem hmem hcid
        rw [hceq2] at hcfn
        exact hcfn.symm ▸ rfl
    · intro hf
      apply List.mem_append_right
      apply List.mem_map.mpr
      refine ⟨(idc, f, cb), ?_, rfl⟩
      apply List.mem_filter.mpr
      exact ⟨hmem, by simp [hf]⟩
  · intro st path cb hdir
    refine ⟨by simp [cfwAddWatch, hdir], ?_⟩
    refine ⟨(addDirectoryCallback
      ((alookup st path.full).getD emptyDirectoryWatch) cb).1, ?_, ?_⟩
    · simp only [cfwAddWatch, hdir, if_pos]
      exact alookup_aset st path.full _
    · simp [cfwAddWatch, hdir, addDirectoryCallback]
  · intro st path cb hdir
    refine ⟨by simp [cfwAddWatch, hdir], ?_⟩
    refine ⟨(addFileCallback
      ((alookup st path.parent).getD emptyDirectoryWatch) path.leaf cb).1,
      ?_, ?_⟩
    · simp only [cfwAddWatch, hdir, Bool.false_eq_true, if_false]
      exact alookup_aset st path.parent _
    · simp [cfwAddWatch, hdir, addFileCallback]

/-- Witness for C10: a watch holding one directory callback and one file
callback on `a.txt`, handling an event for `a.txt`, and a concrete
addWatch for a file path. -/
theorem claim_C10_witness :
    (1, 10) ∈ dwHandle (DirectoryWatchState.mk 2 [(1, 10)]
      [(2, "a.txt", 20)]) "a.txt" ∧
    ((2, 20) ∈ dwHandle (DirectoryWatchState.mk 2 [(1, 10)]
      [(2, "a.txt", 20)]) "a.txt" ↔ "a.txt" = "a.txt") ∧
    (cfwAddWatch [] (PathView.mk "T/a.txt" "T" "a.txt" false) 20).2.1 =
      "T" := by
  refine ⟨?_, ?_, ?_⟩
  · exact claim_C10.1 (DirectoryWatchState.mk 2 [(1, 10)]
      [(2, "a.txt", 20)]) "a.txt" (1, 10) (by decide)
  · exact claim_C10.2.1 (DirectoryWatchState.mk 2 [(1, 10)]
      [(2, "a.txt", 20)]) "a.txt" 2 "a.txt" 20 (by decide) (by decide)
      (by decide)
  · exact (claim_C10.2.2.2 [] (PathView.mk "T/a.txt" "T" "a.txt" false) 20
      rfl).1

/-- Witness for C2: a concrete cycle in which an inode-less delete and an
inode-less add stay separate. -/
theorem claim_C2_witness :
    Event.mk 1 "T" "x" .Delete "" ∈ cycleEvents 1 "T"
        [("x", FileMeta.mk false 1 1 none)]
        [("w", FileMeta.mk false 2 2 none)] ∧
    Event.mk 1 "T" "w" .Add "" ∈ cycleEvents 1 "T"
        [("x", FileMeta.mk false 1 1 none)]
        [("w", FileMeta.mk false 2 2 none)] :=
  ⟨(claim_C2 1 "T" [("x", FileMeta.mk false 1 1 none)]
        [("w", FileMeta.mk false 2 2 none)]).2.2.1
      ("x", FileMeta.mk false 1 1 none) (by decide) rfl,
    (claim_C2 1 "T" [("x", FileMeta.mk false 1 1 none)]
        [("w", FileMeta.mk false 2 2 none)]).2.2.2
      ("w", FileMeta.mk false 2 2 none) (by decide) rfl⟩

end Efsw
